import Mathlib

/-!
Verification of the Smart Room Controller firmware (src/project1.c).

The firmware runs a single sequential loop: read a line of text from the
UART into a fixed 20-byte buffer `cmd` (echoing each byte), match the line
against six literal command strings with `strstr`, update three global
flags (`light1`, `fan`, `ac`), and render the flags to GPIO port B and a
16x2 LCD.

The embedding below models:
  * the three global flags as a structure `St` of naturals (the C globals
    are `unsigned short`, only ever assigned 0 or 1);
  * the `cmd` buffer as a `List Char` of length 20;
  * the observable side effects (UART writes, buffer stores, GPIO writes,
    LCD operations, delays) as an event trace `List Ev`;
  * the incoming UART byte stream as a total function `Nat → Char`
    (the read is blocking, so a byte is always eventually available);
  * the inner read loop `while (i < 19) { ... }` as `readLoop`, structurally
    recursive on a fuel argument.  The fuel starts at 20 and the loop body
    increments `i` starting from 0, so the guard `i < 19` always fires
    before the fuel runs out; the fuel only makes the recursion structural.
-/

namespace SmartRoom

/-- The NUL byte `memset` fills the buffer with, and the terminator written
by `cmd[i] = 0`. -/
def NUL : Char := Char.ofNat 0

/-- `tmp == '\r' || tmp == '\n'` : the line-terminator test of the read loop. -/
def isTerm (c : Char) : Bool := c == '\r' || c == '\n'

/-- The three global flags `light1`, `fan`, `ac` (C `unsigned short`,
initialized to 0). -/
structure St where
  light1 : Nat
  fan : Nat
  ac : Nat
deriving DecidableEq

/-- The startup state: all three globals are initialized to 0. -/
def initSt : St := ⟨0, 0, 0⟩

/-- Observable side effects of the firmware, in program order. -/
inductive Ev where
  | uartWrite : Char → Ev
  | bufWrite : Nat → Char → Ev
  | gpioB : Nat → Nat → Ev
  | lcdClear : Ev
  | lcdOut : Nat → Nat → List Char → Ev
  | delayMs : Nat → Ev
deriving DecidableEq

/-- C `strncmp`-style test: is `p` a (contiguous) initial segment of `s`? -/
def isPrefixOfB : List Char → List Char → Bool
  | [], _ => true
  | _ :: _, [] => false
  | a :: as, b :: bs => a == b && isPrefixOfB as bs

/-- C `strstr(s, pat) != 0`: does `pat` occur as a contiguous substring of
`s`?  Implemented as `strstr` does: try a prefix match at every suffix. -/
def strstrB (s pat : List Char) : Bool :=
  match s with
  | [] => isPrefixOfB pat []
  | c :: t => isPrefixOfB pat (c :: t) || strstrB t pat

/-- Mathematical substring occurrence: `pat` occurs contiguously inside `s`. -/
def Occurs (pat s : List Char) : Prop := ∃ t u, s = t ++ pat ++ u

/-- The six literal command strings, in the order `ParseCommand` checks them. -/
def patterns : List (List Char) :=
  ["LIGHT1 ON".toList, "LIGHT1 OFF".toList, "FAN ON".toList,
   "FAN OFF".toList, "AC ON".toList, "AC OFF".toList]

/-- The LCD/delay side effects of `ParseCommand`'s `else` branch. -/
def unknownEvs (cmd : List Char) : List Ev :=
  [Ev.lcdClear, Ev.lcdOut 1 1 "Unknown Cmd:".toList, Ev.lcdOut 2 1 cmd,
   Ev.delayMs 1500]

/-- `ParseCommand` (src/project1.c:143-158): the if/else-if chain over the
six patterns; the first `strstr` hit assigns its flag, otherwise the
"Unknown Cmd:" message is shown. -/
def ParseCommand (cmd : List Char) (s : St) : St × List Ev :=
  if strstrB cmd "LIGHT1 ON".toList then ({ s with light1 := 1 }, [])
  else if strstrB cmd "LIGHT1 OFF".toList then ({ s with light1 := 0 }, [])
  else if strstrB cmd "FAN ON".toList then ({ s with fan := 1 }, [])
  else if strstrB cmd "FAN OFF".toList then ({ s with fan := 0 }, [])
  else if strstrB cmd "AC ON".toList then ({ s with ac := 1 }, [])
  else if strstrB cmd "AC OFF".toList then ({ s with ac := 0 }, [])
  else (s, unknownEvs cmd)

/-- State component of `ParseCommand`. -/
def parseSt (cmd : List Char) (s : St) : St := (ParseCommand cmd s).1

/-- Event component of `ParseCommand`. -/
def parseEvs (cmd : List Char) (s : St) : List Ev := (ParseCommand cmd s).2

/-- `UpdateOutputsAndLCD` (src/project1.c:160-182): write the three flags to
PB0..PB2 and redraw both LCD rows.  A C `if (flag)` tests `flag ≠ 0`. -/
def UpdateOutputsAndLCD (s : St) : List Ev :=
  [Ev.gpioB 0 s.light1, Ev.gpioB 1 s.fan, Ev.gpioB 2 s.ac,
   Ev.lcdClear, Ev.lcdOut 1 1 "L1:".toList] ++
  (if s.light1 ≠ 0 then [Ev.lcdOut 1 4 "ON ".toList]
   else [Ev.lcdOut 1 4 "OFF".toList]) ++
  [Ev.lcdOut 1 9 "F:".toList] ++
  (if s.fan ≠ 0 then [Ev.lcdOut 1 11 "ON ".toList]
   else [Ev.lcdOut 1 11 "OFF".toList]) ++
  [Ev.lcdOut 2 1 "AC:".toList] ++
  (if s.ac ≠ 0 then [Ev.lcdOut 2 4 "ON ".toList]
   else [Ev.lcdOut 2 4 "OFF".toList])

/-- The read loop of `main` (src/project1.c:72-88):
`while (i < 19) { wait; tmp = UART1_Read(); UART1_Write(tmp);
if (tmp is CR/LF) break; cmd[i] = tmp; i++; }`.
Returns `(i, buffer, next stream position, event trace)`.  The first
argument is fuel making the recursion structural; `readLine` supplies 20,
which the guard `i < 19` (with `i` starting at 0) never exhausts. -/
def readLoop (stream : Nat → Char) :
    Nat → Nat → Nat → List Char → Nat × List Char × Nat × List Ev
  | 0, pos, i, buf => (i, buf, pos, [])
  | fuel + 1, pos, i, buf =>
    if i < 19 then
      let tmp := stream pos
      if isTerm tmp then (i, buf, pos + 1, [Ev.uartWrite tmp])
      else
        let r := readLoop stream fuel (pos + 1) (i + 1) (buf.set i tmp)
        (r.1, r.2.1, r.2.2.1, Ev.uartWrite tmp :: Ev.bufWrite i tmp :: r.2.2.2)
    else (i, buf, pos, [])

/-- One execution of the line-reading block of `main` (src/project1.c:69-89):
`i = 0; memset(cmd, 0, 20); <read loop>; cmd[i] = 0;`.
Returns `(i, cmd buffer, next stream position, event trace)`. -/
def readLine (stream : Nat → Char) (pos : Nat) :
    Nat × List Char × Nat × List Ev :=
  let r := readLoop stream 20 pos 0 (List.replicate 20 NUL)
  (r.1, r.2.1.set r.1 NUL, r.2.2.1, r.2.2.2 ++ [Ev.bufWrite r.1 NUL])

/-- The contents of the buffer as a C string: the bytes before the first NUL
(this is what `strstr` and `Lcd_Out` read). -/
def cString (buf : List Char) : List Char := buf.takeWhile (fun c => c != NUL)

/-- One iteration of `main`'s `while(1)` loop (src/project1.c:66-96):
read a line, then `if (i > 0) { ParseCommand(); UpdateOutputsAndLCD(); }`.
Returns `(next stream position, state, event trace)`. -/
def loopIter (stream : Nat → Char) (pos : Nat) (s : St) :
    Nat × St × List Ev :=
  let r := readLine stream pos
  if 0 < r.1 then
    let p := ParseCommand (cString r.2.1) s
    (r.2.2.1, p.1, r.2.2.2 ++ p.2 ++ UpdateOutputsAndLCD p.1)
  else (r.2.2.1, s, r.2.2.2)

/-- Processing a sequence of already-read lines through `ParseCommand`
(state component only). -/
def runLines (ls : List (List Char)) (s : St) : St :=
  ls.foldl (fun t l => parseSt l t) s

/-- The kind of flag a command names. -/
inductive Kind where
  | light1 : Kind
  | fan : Kind
  | ac : Kind
deriving DecidableEq

/-- Read the flag of a given kind. -/
def flagOf (k : Kind) (s : St) : Nat :=
  match k with
  | Kind.light1 => s.light1
  | Kind.fan => s.fan
  | Kind.ac => s.ac

/-- Which command (flag kind, ON?) the if/else-if chain of `ParseCommand`
matches on a given line, if any. -/
def matchResult (cmd : List Char) : Option (Kind × Bool) :=
  if strstrB cmd "LIGHT1 ON".toList then some (Kind.light1, true)
  else if strstrB cmd "LIGHT1 OFF".toList then some (Kind.light1, false)
  else if strstrB cmd "FAN ON".toList then some (Kind.fan, true)
  else if strstrB cmd "FAN OFF".toList then some (Kind.fan, false)
  else if strstrB cmd "AC ON".toList then some (Kind.ac, true)
  else if strstrB cmd "AC OFF".toList then some (Kind.ac, false)
  else none

/-- The most recent command of kind `k` matched in a sequence of lines:
`some true` for ON, `some false` for OFF, `none` if never matched. -/
def lastCmd (k : Kind) (ls : List (List Char)) : Option Bool :=
  ls.foldl (fun acc l =>
    match matchResult l with
    | some (k', v) => if k' = k then some v else acc
    | none => acc) none

/-- The flag kind named by the `j`-th pattern (0-based, in check order). -/
def kindOfIdx (j : Nat) : Kind :=
  if j < 2 then Kind.light1 else if j < 4 then Kind.fan else Kind.ac

/-- The effect of the `j`-th pattern's branch on the state. -/
def applyPattern (j : Nat) (s : St) : St :=
  if j = 0 then { s with light1 := 1 }
  else if j = 1 then { s with light1 := 0 }
  else if j = 2 then { s with fan := 1 }
  else if j = 3 then { s with fan := 0 }
  else if j = 4 then { s with ac := 1 }
  else { s with ac := 0 }

/-- Index of the first pattern (in check order) that `strstr` finds. -/
def firstMatch (cmd : List Char) : Option Nat :=
  (List.range 6).find? (fun j => strstrB cmd (patterns.getD j []))

/-- Number of bytes the read loop will store before hitting a terminator,
with at most `fuel` reads considered. -/
def storeCount (stream : Nat → Char) (pos : Nat) : Nat → Nat
  | 0 => 0
  | fuel + 1 =>
    if isTerm (stream pos) then 0 else storeCount stream (pos + 1) fuel + 1

/-- Number of characters `readLine` stores: bytes before the first CR/LF,
capped at 19. -/
def lineLen (stream : Nat → Char) (pos : Nat) : Nat := storeCount stream pos 19

/-- Project a UART write out of an event. -/
def uartProj : Ev → Option Char
  | Ev.uartWrite c => some c
  | _ => none

/-- Project a GPIO port-B write out of an event. -/
def gpioProj : Ev → Option (Nat × Nat)
  | Ev.gpioB p v => some (p, v)
  | _ => none

/-- The literal reading of the read-parse-render claim: after every line,
the empty line included, the iteration's trace is the read trace followed
by the `ParseCommand` trace followed by the `UpdateOutputsAndLCD` trace. -/
def alwaysParsesAfterRead : Prop :=
  ∀ stream pos s,
    (loopIter stream pos s).2.2 =
      (readLine stream pos).2.2.2 ++
      parseEvs (cString (readLine stream pos).2.1) s ++
      UpdateOutputsAndLCD (parseSt (cString (readLine stream pos).2.1) s)

/-- The literal reading of the first-match-priority claim: when more than
one pattern occurs in the line, the first one in check order takes effect
and the flag named by every later matching pattern is left unchanged. -/
def laterMatchesLeaveFlags : Prop :=
  ∀ cmd s j j', firstMatch cmd = some j → j' < 6 → j < j' →
    strstrB cmd (patterns.getD j' []) = true →
    (ParseCommand cmd s).1 = applyPattern j s ∧
    flagOf (kindOfIdx j') ((ParseCommand cmd s).1) = flagOf (kindOfIdx j') s

/-! ### Correctness of the substring search -/

theorem isPrefixOfB_iff (p s : List Char) :
    isPrefixOfB p s = true ↔ ∃ r, s = p ++ r := by
  induction p generalizing s with
  | nil => simp [isPrefixOfB]
  | cons a as ih =>
    cases s with
    | nil => simp [isPrefixOfB]
    | cons b bs =>
      simp only [isPrefixOfB, Bool.and_eq_true, beq_iff_eq, ih,
        List.cons_append, List.cons.injEq]
      aesop

/-- `strstrB s pat` decides whether `pat` occurs as a substring of `s`. -/
theorem strstrB_iff (s pat : List Char) :
    strstrB s pat = true ↔ Occurs pat s := by
  induction s with
  | nil =>
    simp only [strstrB, isPrefixOfB_iff, Occurs]
    constructor
    · rintro ⟨r, hr⟩
      exact ⟨[], r, by simpa using hr⟩
    · rintro ⟨x, y, hxy⟩
      refine ⟨y, ?_⟩
      have hx : x = [] ∧ pat ++ y = [] := by
        simpa using hxy.symm
      simp [hx.2]
  | cons c cs ih =>
    simp only [strstrB, Bool.or_eq_true, isPrefixOfB_iff, ih, Occurs]
    constructor
    · rintro (⟨r, hr⟩ | ⟨x, y, hxy⟩)
      · exact ⟨[], r, by simpa using hr⟩
      · exact ⟨c :: x, y, by simp [hxy]⟩
    · rintro ⟨x, y, hxy⟩
      cases x with
      | nil => exact Or.inl ⟨y, by simpa using hxy⟩
      | cons d ds =>
        have h : c = d ∧ cs = ds ++ (pat ++ y) := by simpa using hxy
        exact Or.inr ⟨ds, y, by simpa using h.2⟩

/-! ### Characterization of `ParseCommand`'s state update -/

/-- `parseSt` acts on the state exactly as the first matched command
directs: the named flag becomes 1 (ON) or 0 (OFF), nothing else moves. -/
theorem parseSt_eq (l : List Char) (s : St) :
    parseSt l s =
      match matchResult l with
      | some (Kind.light1, true) => { s with light1 := 1 }
      | some (Kind.light1, false) => { s with light1 := 0 }
      | some (Kind.fan, true) => { s with fan := 1 }
      | some (Kind.fan, false) => { s with fan := 0 }
      | some (Kind.ac, true) => { s with ac := 1 }
      | some (Kind.ac, false) => { s with ac := 0 }
      | none => s := by
  unfold parseSt ParseCommand matchResult
  repeat' split
  all_goals simp_all

theorem flagOf_parseSt (k : Kind) (l : List Char) (s : St) :
    flagOf k (parseSt l s) =
      match matchResult l with
      | some (k', v) => if k' = k then (if v then 1 else 0) else flagOf k s
      | none => flagOf k s := by
  rw [parseSt_eq]
  cases hm : matchResult l with
  | none => rfl
  | some kv =>
    obtain ⟨k', v⟩ := kv
    cases k' <;> cases v <;> cases k <;> simp [flagOf]

theorem lastCmd_append (k : Kind) (ls : List (List Char)) (l : List Char) :
    lastCmd k (ls ++ [l]) =
      match matchResult l with
      | some (k', v) => if k' = k then some v else lastCmd k ls
      | none => lastCmd k ls := by
  unfold lastCmd
  rw [List.foldl_append]
  rfl

theorem runLines_append (ls : List (List Char)) (l : List Char) (s : St) :
    runLines (ls ++ [l]) s = parseSt l (runLines ls s) := by
  unfold runLines
  rw [List.foldl_append]
  rfl

theorem flagOf_runLines (k : Kind) (ls : List (List Char)) (s : St) :
    flagOf k (runLines ls s) =
      match lastCmd k ls with
      | some v => if v then 1 else 0
      | none => flagOf k s := by
  induction ls using List.reverseRecOn with
  | nil => rfl
  | append_singleton ls l ih =>
    rw [runLines_append, flagOf_parseSt, lastCmd_append]
    cases hm : matchResult l with
    | none => exact ih
    | some kv =>
      obtain ⟨k', v⟩ := kv
      by_cases hk : k' = k
      · simp [hk]
      · simp [hk, ih]

/-- C2: starting from all three flags 0 at startup, after any sequence of
lines each flag is 1 if the most recently matched command of its kind was
ON, 0 if it was OFF, and 0 if no command of its kind was ever matched. -/
theorem flags_reflect_last_matched (ls : List (List Char)) (k : Kind) :
    flagOf k (runLines ls initSt) =
      match lastCmd k ls with
      | some true => 1
      | some false => 0
      | none => 0 := by
  rw [flagOf_runLines]
  cases h : lastCmd k ls with
  | none => cases k <;> rfl
  | some v => cases v <;> rfl

/-- C1: when exactly one of the six command strings occurs as a substring
of the line, `ParseCommand` performs exactly that command's branch: the
named flag is set to 1 for ON, 0 for OFF (and nothing else changes). -/
theorem parseCommand_unique_match (cmd : List Char) (s : St) (j : Nat)
    (hj : j < 6) (hocc : Occurs (patterns.getD j []) cmd)
    (huniq : ∀ j', j' < 6 → j' ≠ j → ¬ Occurs (patterns.getD j' []) cmd) :
    (ParseCommand cmd s).1 = applyPattern j s := by
  have ht : strstrB cmd (patterns.getD j []) = true :=
    (strstrB_iff _ _).mpr hocc
  have hb : ∀ j', j' < 6 → j' ≠ j → strstrB cmd (patterns.getD j' []) = false :=
    fun j' h1 h2 =>
      Bool.eq_false_iff.mpr (fun h => huniq j' h1 h2 ((strstrB_iff _ _).mp h))
  interval_cases j <;>
  · have h0 := hb 0; have h1 := hb 1; have h2 := hb 2
    have h3 := hb 3; have h4 := hb 4; have h5 := hb 5
    simp only [patterns, List.getD, List.get?_cons_zero, List.get?_cons_succ,
      Option.getD_some] at ht h0 h1 h2 h3 h4 h5
    simp_all [ParseCommand, applyPattern]

theorem parseCommand_unique_match_witness :
    (ParseCommand "AC ON".toList initSt).1 = applyPattern 4 initSt :=
  parseCommand_unique_match "AC ON".toList initSt 4 (by decide)
    ⟨[], [], by decide⟩
    (fun j' h1 h2 hocc => by
      have hb := (strstrB_iff "AC ON".toList (patterns.getD j' [])).mpr hocc
      interval_cases j'
      · exact absurd hb (by decide)
      · exact absurd hb (by decide)
      · exact absurd hb (by decide)
      · exact absurd hb (by decide)
      · exact absurd rfl h2
      · exact absurd hb (by decide))

/-- C3: on a non-empty line in which none of the six command strings
occurs, `ParseCommand` leaves the state unchanged and only shows the
"Unknown Cmd:" message with the received text. -/
theorem parseCommand_unknown (cmd : List Char) (s : St) (hne : cmd ≠ [])
    (hnone : ∀ j, j < 6 → ¬ Occurs (patterns.getD j []) cmd) :
    ParseCommand cmd s = (s, unknownEvs cmd) := by
  have hb : ∀ j, j < 6 → strstrB cmd (patterns.getD j []) = false :=
    fun j hj =>
      Bool.eq_false_iff.mpr (fun h => hnone j hj ((strstrB_iff _ _).mp h))
  have h0 := hb 0 (by norm_num); have h1 := hb 1 (by norm_num)
  have h2 := hb 2 (by norm_num); have h3 := hb 3 (by norm_num)
  have h4 := hb 4 (by norm_num); have h5 := hb 5 (by norm_num)
  simp only [patterns, List.getD, List.get?_cons_zero, List.get?_cons_succ,
    Option.getD_some] at h0 h1 h2 h3 h4 h5
  simp at h0 h1 h2 h3 h4 h5
  simp [ParseCommand, h0, h1, h2, h3, h4, h5]

theorem parseCommand_unknown_witness :
    ParseCommand "HELLO".toList initSt =
      (initSt, unknownEvs "HELLO".toList) :=
  parseCommand_unknown "HELLO".toList initSt (by decide)
    (fun j hj hocc => by
      have hb := (strstrB_iff "HELLO".toList (patterns.getD j [])).mpr hocc
      interval_cases j
      · exact absurd hb (by decide)
      · exact absurd hb (by decide)
      · exact absurd hb (by decide)
      · exact absurd hb (by decide)
      · exact absurd hb (by decide)
      · exact absurd hb (by decide))

/-! ### The read loop -/

theorem storeCount_le (stream : Nat → Char) :
    ∀ fuel pos, storeCount stream pos fuel ≤ fuel := by
  intro fuel
  induction fuel with
  | zero => intro pos; simp [storeCount]
  | succ n ih =>
    intro pos
    by_cases ht : isTerm (stream pos) = true
    · simp [storeCount, ht]
    · simp [storeCount, ht]
      have := ih (pos + 1)
      omega

theorem storeCount_no_term (stream : Nat → Char) :
    ∀ fuel pos k, k < storeCount stream pos fuel →
      isTerm (stream (pos + k)) = false := by
  intro fuel
  induction fuel with
  | zero => intro pos k hk; simp [storeCount] at hk
  | succ n ih =>
    intro pos k hk
    by_cases ht : isTerm (stream pos) = true
    · simp [storeCount, ht] at hk
    · simp [storeCount, ht] at hk
      cases k with
      | zero => simpa using Bool.eq_false_iff.mpr ht
      | succ k' =>
        have : k' < storeCount stream (pos + 1) n := by omega
        have h := ih (pos + 1) k' this
        have harg : pos + 1 + k' = pos + (k' + 1) := by omega
        rwa [harg] at h

theorem storeCount_term (stream : Nat → Char) :
    ∀ fuel pos, storeCount stream pos fuel < fuel →
      isTerm (stream (pos + storeCount stream pos fuel)) = true := by
  intro fuel
  induction fuel with
  | zero => intro pos h; omega
  | succ n ih =>
    intro pos h
    by_cases ht : isTerm (stream pos) = true
    · simpa [storeCount, ht] using ht
    · simp [storeCount, ht] at h ⊢
      have hlt : storeCount stream (pos + 1) n < n := by omega
      have := ih (pos + 1) hlt
      have harg : pos + 1 + storeCount stream (pos + 1) n =
          pos + (storeCount stream (pos + 1) n + 1) := by omega
      rwa [harg] at this

/-- Full characterization of the read loop: starting at store index `i` with
enough fuel, it stores exactly the bytes before the first terminator (capped
by the buffer guard), echoes every consumed byte, and leaves the rest of the
buffer untouched. -/
theorem readLoop_spec (stream : Nat → Char) (fuel : Nat) :
    ∀ pos i buf, i ≤ 19 → 20 ≤ i + fuel → buf.length = 20 →
    (readLoop stream fuel pos i buf).1 = i + storeCount stream pos (19 - i) ∧
    (readLoop stream fuel pos i buf).2.2.1 =
      pos + storeCount stream pos (19 - i) +
        (if storeCount stream pos (19 - i) < 19 - i then 1 else 0) ∧
    (readLoop stream fuel pos i buf).2.1.length = 20 ∧
    (∀ j, j < 20 →
      (readLoop stream fuel pos i buf).2.1[j]? =
        if i ≤ j ∧ j < i + storeCount stream pos (19 - i) then
          some (stream (pos + (j - i)))
        else buf[j]?) ∧
    (readLoop stream fuel pos i buf).2.2.2 =
      (List.range (storeCount stream pos (19 - i))).flatMap (fun k =>
        [Ev.uartWrite (stream (pos + k)),
         Ev.bufWrite (i + k) (stream (pos + k))]) ++
      (if storeCount stream pos (19 - i) < 19 - i then
        [Ev.uartWrite (stream (pos + storeCount stream pos (19 - i)))]
       else []) := by
  induction fuel with
  | zero =>
    intro pos i buf hi hfuel hlen
    exfalso; omega
  | succ n ih =>
    intro pos i buf hi hfuel hlen
    by_cases h19 : i < 19
    · have hsub : 19 - i = (18 - i) + 1 := by omega
      by_cases ht : isTerm (stream pos) = true
      · have hm : storeCount stream pos (19 - i) = 0 := by
          rw [hsub]; simp [storeCount, ht]
        have hr : readLoop stream (n + 1) pos i buf =
            (i, buf, pos + 1, [Ev.uartWrite (stream pos)]) := by
          simp only [readLoop]; simp [h19, ht]
        rw [hr, hm]
        have hpos : 0 < 19 - i := by omega
        refine ⟨by simp, by simp [hpos], hlen, ?_, by simp [hpos]⟩
        intro j hj
        rw [if_neg (by omega)]
      · have hm : storeCount stream pos (19 - i) =
            storeCount stream (pos + 1) (18 - i) + 1 := by
          rw [hsub]; simp [storeCount, ht]
        have hr : readLoop stream (n + 1) pos i buf =
            ((readLoop stream n (pos + 1) (i + 1) (buf.set i (stream pos))).1,
             (readLoop stream n (pos + 1) (i + 1) (buf.set i (stream pos))).2.1,
             (readLoop stream n (pos + 1) (i + 1) (buf.set i (stream pos))).2.2.1,
             Ev.uartWrite (stream pos) :: Ev.bufWrite i (stream pos) ::
               (readLoop stream n (pos + 1) (i + 1) (buf.set i (stream pos))).2.2.2) := by
          simp only [readLoop]; simp [h19, ht]
        obtain ⟨ih1, ih2, ih3, ih4, ih5⟩ :=
          ih (pos + 1) (i + 1) (buf.set i (stream pos))
            (by omega) (by omega) (by simp [hlen])
        have hsub2 : 19 - (i + 1) = 18 - i := by omega
        rw [hsub2] at ih1 ih2 ih4 ih5
        rw [hr, hm]
        refine ⟨by rw [ih1]; omega, ?_, ih3, ?_, ?_⟩
        · rw [ih2]
          by_cases hc : storeCount stream (pos + 1) (18 - i) < 18 - i
          · rw [if_pos hc, if_pos (by omega)]; omega
          · rw [if_neg hc, if_neg (by omega)]; omega
        · intro j hj
          rw [ih4 j hj]
          by_cases hcase : i + 1 ≤ j ∧ j < i + 1 + storeCount stream (pos + 1) (18 - i)
          · rw [if_pos hcase, if_pos (by omega)]
            have harg : pos + 1 + (j - (i + 1)) = pos + (j - i) := by omega
            rw [harg]
          · rw [if_neg hcase]
            by_cases hji : j = i
            · subst hji
              rw [List.getElem?_set_eq_of_lt (stream pos) (by omega),
                if_pos (by omega)]
              simp
            · rw [List.getElem?_set_ne (by omega), if_neg (by omega)]
        · rw [ih5, List.range_succ_eq_map, List.flatMap_cons, List.flatMap_map]
          simp only [Nat.succ_eq_add_one, Nat.add_zero, List.cons_append,
            List.nil_append]
          have hfun : (fun a => [Ev.uartWrite (stream (pos + (a + 1))),
              Ev.bufWrite (i + (a + 1)) (stream (pos + (a + 1)))]) =
              (fun k => [Ev.uartWrite (stream (pos + 1 + k)),
              Ev.bufWrite (i + 1 + k) (stream (pos + 1 + k))]) := by
            funext k
            have h1 : pos + (k + 1) = pos + 1 + k := by omega
            have h2 : i + (k + 1) = i + 1 + k := by omega
            rw [h1, h2]
          rw [hfun]
          by_cases hc : storeCount stream (pos + 1) (18 - i) < 18 - i
          · rw [if_pos hc, if_pos (by omega)]
            have harg : pos + (storeCount stream (pos + 1) (18 - i) + 1) =
                pos + 1 + storeCount stream (pos + 1) (18 - i) := by omega
            rw [harg]
          · rw [if_neg hc, if_neg (by omega)]
    · have hi19 : i = 19 := by omega
      subst hi19
      have hm : storeCount stream pos (19 - 19) = 0 := by simp [storeCount]
      have hr : readLoop stream (n + 1) pos 19 buf = (19, buf, pos, []) := by
        simp only [readLoop]; simp
      rw [hr, hm]
      refine ⟨by simp, by simp, hlen, ?_, by simp⟩
      intro j hj
      rw [if_neg (by omega)]

/-- Full characterization of `readLine`: value of `i`, final stream
position, buffer contents, and event trace. -/
theorem readLine_spec (stream : Nat → Char) (pos : Nat) :
    (readLine stream pos).1 = lineLen stream pos ∧
    (readLine stream pos).2.2.1 =
      pos + lineLen stream pos +
        (if lineLen stream pos < 19 then 1 else 0) ∧
    (readLine stream pos).2.1.length = 20 ∧
    (∀ j, j < 20 → (readLine stream pos).2.1[j]? =
      if j < lineLen stream pos then some (stream (pos + j)) else some NUL) ∧
    (readLine stream pos).2.2.2 =
      (List.range (lineLen stream pos)).flatMap (fun k =>
        [Ev.uartWrite (stream (pos + k)), Ev.bufWrite k (stream (pos + k))]) ++
      (if lineLen stream pos < 19 then
        [Ev.uartWrite (stream (pos + lineLen stream pos))] else []) ++
      [Ev.bufWrite (lineLen stream pos) NUL] := by
  obtain ⟨h1, h2, h3, h4, h5⟩ :=
    readLoop_spec stream 20 pos 0 (List.replicate 20 NUL)
      (by omega) (by omega) (by simp)
  simp only [Nat.sub_zero, Nat.zero_add, Nat.add_zero, Nat.zero_le, true_and]
    at h1 h2 h4 h5
  have hsc : storeCount stream pos 19 ≤ 19 := storeCount_le stream 19 pos
  simp only [lineLen]
  refine ⟨h1, h2, ?_, ?_, ?_⟩
  · show ((readLoop stream 20 pos 0 (List.replicate 20 NUL)).2.1.set
        (readLoop stream 20 pos 0 (List.replicate 20 NUL)).1 NUL).length = 20
    rw [List.length_set]; exact h3
  · intro j hj
    show ((readLoop stream 20 pos 0 (List.replicate 20 NUL)).2.1.set
        (readLoop stream 20 pos 0 (List.replicate 20 NUL)).1 NUL)[j]? = _
    rw [h1]
    by_cases hji : j = storeCount stream pos 19
    · subst hji
      rw [List.getElem?_set_eq_of_lt NUL (by rw [h3]; omega),
        if_neg (by omega)]
    · rw [List.getElem?_set_ne (fun h => hji h.symm), h4 j hj]
      by_cases hlt : j < storeCount stream pos 19
      · rw [if_pos hlt, if_pos hlt]
      · rw [if_neg hlt, List.getElem?_replicate, if_pos hj, if_neg hlt]
  · show (readLoop stream 20 pos 0 (List.replicate 20 NUL)).2.2.2 ++
        [Ev.bufWrite (readLoop stream 20 pos 0 (List.replicate 20 NUL)).1 NUL] = _
    rw [h1, h5, List.append_assoc]

/-- C4: on each iteration the reader clears the 20-byte buffer, stores the
received bytes until a CR/LF arrives or 19 bytes are stored (whichever
comes first), does not store the terminator, and leaves a null-terminated
string in the buffer (stored bytes below `lineLen`, NUL from there on). -/
theorem readLine_stores_line (stream : Nat → Char) (pos : Nat) :
    lineLen stream pos ≤ 19 ∧
    (readLine stream pos).1 = lineLen stream pos ∧
    (readLine stream pos).2.1.length = 20 ∧
    (∀ j, j < 20 → (readLine stream pos).2.1[j]? =
      if j < lineLen stream pos then some (stream (pos + j)) else some NUL) ∧
    (∀ k, k < lineLen stream pos → isTerm (stream (pos + k)) = false) ∧
    (lineLen stream pos < 19 → isTerm (stream (pos + lineLen stream pos)) = true) := by
  obtain ⟨h1, _, h3, h4, _⟩ := readLine_spec stream pos
  exact ⟨storeCount_le stream 19 pos, h1, h3, h4,
    fun k hk => storeCount_no_term stream 19 pos k hk,
    fun hlt => storeCount_term stream 19 pos hlt⟩

theorem readLine_stores_line_witness :
    (readLine (fun _ => 'X') 0).2.1[3]? =
      (if 3 < lineLen (fun _ => 'X') 0 then some ((fun _ : Nat => 'X') (0 + 3))
       else some NUL) ∧
    isTerm ((fun _ : Nat => 'X') (0 + 0)) = false :=
  ⟨(readLine_stores_line (fun _ => 'X') 0).2.2.2.1 3 (by decide),
   (readLine_stores_line (fun _ => 'X') 0).2.2.2.2.1 0 (by decide)⟩

theorem filterMap_uart_flatMap (g : Nat → Char) (l : List Nat) :
    (l.flatMap (fun k =>
      [Ev.uartWrite (g k), Ev.bufWrite k (g k)])).filterMap uartProj
      = l.map g := by
  induction l with
  | nil => rfl
  | cons a t ih =>
    rw [List.flatMap_cons, List.filterMap_append, ih, List.map_cons]
    rfl

/-- C8: every byte received over the serial link, the terminating CR/LF
included, is echoed back before any further processing of that byte: the
trace places each byte's `uartWrite` strictly before its buffer store, and
the echoed bytes are exactly the consumed bytes in order. -/
theorem readLine_echoes (stream : Nat → Char) (pos : Nat) :
    (readLine stream pos).2.2.2 =
      (List.range (lineLen stream pos)).flatMap (fun k =>
        [Ev.uartWrite (stream (pos + k)), Ev.bufWrite k (stream (pos + k))]) ++
      ((if lineLen stream pos < 19 then
        [Ev.uartWrite (stream (pos + lineLen stream pos))] else []) ++
      [Ev.bufWrite (lineLen stream pos) NUL]) ∧
    (readLine stream pos).2.2.2.filterMap uartProj =
      (List.range ((readLine stream pos).2.2.1 - pos)).map
        (fun k => stream (pos + k)) := by
  obtain ⟨_, h2, _, _, h5⟩ := readLine_spec stream pos
  rw [List.append_assoc] at h5
  refine ⟨h5, ?_⟩
  rw [h5, h2]
  by_cases hlt : lineLen stream pos < 19
  · simp only [if_pos hlt, List.filterMap_append, filterMap_uart_flatMap]
    have hn : pos + lineLen stream pos + 1 - pos = lineLen stream pos + 1 := by
      omega
    rw [hn, List.range_succ, List.map_append]
    simp [uartProj]
  · simp only [if_neg hlt, List.filterMap_append, filterMap_uart_flatMap]
    have hn : pos + lineLen stream pos + 0 - pos = lineLen stream pos := by
      omega
    rw [hn]
    simp [uartProj]

theorem length_takeWhile_le_of_getElem (p : Char → Bool) {c : Char} :
    ∀ (l : List Char) (n : Nat), l[n]? = some c → p c = false →
      (l.takeWhile p).length ≤ n := by
  intro l
  induction l with
  | nil => intro n h _; simp at h
  | cons a t ih =>
    intro n h hc
    cases n with
    | zero =>
      simp only [List.getElem?_cons_zero, Option.some_inj] at h
      subst h
      simp [List.takeWhile, hc]
    | succ n' =>
      simp only [List.getElem?_cons_succ] at h
      by_cases hp : p a = true
      · simp only [List.takeWhile, hp, List.length_cons]
        have := ih n' h hc
        omega
      · simp only [List.takeWhile, Bool.not_eq_true] at hp
        simp [hp]

/-- C9: buffer writes never go out of bounds: every store of a received
byte uses an index strictly below 19, the null terminator is written at
index at most 19 of the length-20 buffer, and the buffer always holds a
C string of at most 19 characters. -/
theorem readLine_in_bounds (stream : Nat → Char) (pos : Nat) :
    (∀ j c, Ev.bufWrite j c ∈ (readLine stream pos).2.2.2 → j ≤ 19) ∧
    (∀ j c, Ev.bufWrite j c ∈ (readLine stream pos).2.2.2 → c ≠ NUL → j < 19) ∧
    (readLine stream pos).2.1.length = 20 ∧
    (readLine stream pos).2.1[lineLen stream pos]? = some NUL ∧
    lineLen stream pos ≤ 19 ∧
    (cString (readLine stream pos).2.1).length ≤ 19 := by
  obtain ⟨_, _, h3, h4, h5⟩ := readLine_spec stream pos
  have hsc : lineLen stream pos ≤ 19 := storeCount_le stream 19 pos
  have hnul : (readLine stream pos).2.1[lineLen stream pos]? = some NUL := by
    rw [h4 (lineLen stream pos) (by omega), if_neg (by omega)]
  have hmem : ∀ j c, Ev.bufWrite j c ∈ (readLine stream pos).2.2.2 →
      j < lineLen stream pos ∨ (j = lineLen stream pos ∧ c = NUL) := by
    intro j c hm
    rw [h5] at hm
    rcases List.mem_append.mp hm with hin | hin
    · rcases List.mem_append.mp hin with hA | hX
      · rcases List.mem_flatMap.mp hA with ⟨k, hk, hkin⟩
        have hk' : k < lineLen stream pos := List.mem_range.mp hk
        simp only [List.mem_cons, List.not_mem_nil, or_false] at hkin
        rcases hkin with h | h
        · simp at h
        · left
          injection h with hj hc2
          omega
      · by_cases hlt : lineLen stream pos < 19
        · rw [if_pos hlt] at hX
          simp at hX
        · rw [if_neg hlt] at hX
          simp at hX
    · simp only [List.mem_singleton] at hin
      injection hin with h1 h2
      exact Or.inr ⟨h1, h2⟩
  refine ⟨?_, ?_, h3, hnul, hsc, ?_⟩
  · intro j c hm
    rcases hmem j c hm with h | ⟨h, _⟩ <;> omega
  · intro j c hm hc
    rcases hmem j c hm with h | ⟨h1, h2⟩
    · omega
    · exact absurd h2 hc
  · have hget : (readLine stream pos).2.1[lineLen stream pos]? = some NUL := hnul
    have hp : (NUL != NUL) = false := by simp
    exact le_trans
      (length_takeWhile_le_of_getElem (fun c => c != NUL)
        (readLine stream pos).2.1 (lineLen stream pos) hget hp) hsc

theorem readLine_in_bounds_witness :
    Ev.bufWrite 0 'A' ∈
      (readLine (fun n => if n = 0 then 'A' else '\r') 0).2.2.2 ∧
    (0 : Nat) < 19 :=
  ⟨by decide,
   (readLine_in_bounds (fun n => if n = 0 then 'A' else '\r') 0).2.1 0 'A'
     (by decide) (by decide)⟩

/-! ### The main loop -/

/-- C5 counterexample: on a line consisting of just CR (an empty line), the
code skips both `ParseCommand` and `UpdateOutputsAndLCD` — `if (i > 0)` —
so the iteration trace is the read trace alone; the claim's "including an
empty one" fails. -/
theorem loopIter_empty_line_skips : ¬ alwaysParsesAfterRead := by
  intro h
  have hc := h (fun _ => '\r') 0 initSt
  revert hc
  decide

/-- C5 (amended): every iteration performs read, then — when the line read
is non-empty — parse, then render, in that order, before the next read
begins; an empty line (terminator as first byte) skips both parse and
render and leaves the state unchanged. -/
theorem loopIter_read_parse_render (stream : Nat → Char) (pos : Nat) (s : St) :
    (0 < lineLen stream pos →
      (loopIter stream pos s).2.2 =
        (readLine stream pos).2.2.2 ++
        parseEvs (cString (readLine stream pos).2.1) s ++
        UpdateOutputsAndLCD (parseSt (cString (readLine stream pos).2.1) s)) ∧
    (lineLen stream pos = 0 →
      (loopIter stream pos s).2.2 = (readLine stream pos).2.2.2 ∧
      (loopIter stream pos s).2.1 = s) := by
  obtain ⟨h1, _, _, _, _⟩ := readLine_spec stream pos
  constructor
  · intro hpos
    have hgt : 0 < (readLine stream pos).1 := by rw [h1]; exact hpos
    simp [loopIter, hgt, parseEvs, parseSt]
  · intro h0
    have hng : ¬ 0 < (readLine stream pos).1 := by rw [h1]; omega
    simp [loopIter, hng]

theorem loopIter_read_parse_render_witness :
    (loopIter (fun n => if n = 0 then 'A' else '\r') 0 initSt).2.2 =
      (readLine (fun n => if n = 0 then 'A' else '\r') 0).2.2.2 ++
      parseEvs (cString (readLine (fun n => if n = 0 then 'A' else '\r') 0).2.1)
        initSt ++
      UpdateOutputsAndLCD (parseSt
        (cString (readLine (fun n => if n = 0 then 'A' else '\r') 0).2.1)
        initSt) :=
  (loopIter_read_parse_render (fun n => if n = 0 then 'A' else '\r') 0
    initSt).1 (by decide)

/-- C6: the three flags are mutated only by the matcher: a matched command
changes at most its own flag, an unmatched line changes nothing, and an
iteration's final state is exactly what `ParseCommand` produced (the reader
and the renderer never touch the flags). -/
theorem flags_only_changed_by_matcher :
    (∀ cmd s k v, matchResult cmd = some (k, v) →
      ∀ k', k' ≠ k → flagOf k' (parseSt cmd s) = flagOf k' s) ∧
    (∀ cmd s, matchResult cmd = none → parseSt cmd s = s) ∧
    (∀ stream pos s, (loopIter stream pos s).2.1 =
      (if 0 < (readLine stream pos).1
       then parseSt (cString (readLine stream pos).2.1) s else s)) := by
  refine ⟨?_, ?_, ?_⟩
  · intro cmd s k v hm k' hk
    rw [parseSt_eq, hm]
    cases k <;> cases v <;> cases k' <;> simp_all [flagOf]
  · intro cmd s hm
    rw [parseSt_eq, hm]
  · intro stream pos s
    by_cases hgt : 0 < (readLine stream pos).1 <;>
      simp [loopIter, hgt, parseSt]

theorem flags_only_changed_by_matcher_witness :
    flagOf Kind.fan (parseSt "LIGHT1 ON".toList initSt) =
      flagOf Kind.fan initSt ∧
    parseSt "HELLO".toList initSt = initSt :=
  ⟨flags_only_changed_by_matcher.1 "LIGHT1 ON".toList initSt Kind.light1 true
      (by decide) Kind.fan (by decide),
   flags_only_changed_by_matcher.2.1 "HELLO".toList initSt (by decide)⟩

/-- C7: for every state, the renderer writes `light1` to PB0, `fan` to
PB1, `ac` to PB2 (in that order), and redraws both display rows with "ON "
or "OFF" for each flag according to its value: L1 at row 1 col 4, F at row
1 col 11, AC at row 2 col 4. -/
theorem updateOutputs_renders_state (s : St) :
    (UpdateOutputsAndLCD s).filterMap gpioProj =
      [(0, s.light1), (1, s.fan), (2, s.ac)] ∧
    Ev.lcdOut 1 4 (if s.light1 ≠ 0 then "ON ".toList else "OFF".toList) ∈
      UpdateOutputsAndLCD s ∧
    Ev.lcdOut 1 11 (if s.fan ≠ 0 then "ON ".toList else "OFF".toList) ∈
      UpdateOutputsAndLCD s ∧
    Ev.lcdOut 2 4 (if s.ac ≠ 0 then "ON ".toList else "OFF".toList) ∈
      UpdateOutputsAndLCD s ∧
    Ev.lcdClear ∈ UpdateOutputsAndLCD s := by
  by_cases hl : s.light1 ≠ 0 <;> by_cases hf : s.fan ≠ 0 <;>
    by_cases ha : s.ac ≠ 0 <;>
    simp [UpdateOutputsAndLCD, gpioProj, hl, hf, ha]

/-! ### First-match priority -/

theorem find?_range_first (p : Nat → Bool) :
    ∀ n j, (List.range n).find? p = some j →
      p j = true ∧ ∀ i, i < j → p i = false := by
  intro n
  induction n generalizing p with
  | zero => intro j h; simp [List.range_zero] at h
  | succ m ih =>
    intro j h
    rw [List.range_succ_eq_map, List.find?_cons] at h
    by_cases hp0 : p 0 = true
    · rw [hp0] at h
      simp only [Option.some_inj] at h
      subst h
      exact ⟨hp0, fun i hi => absurd hi (by omega)⟩
    · rw [Bool.eq_false_iff.mpr hp0] at h
      rw [List.find?_map] at h
      obtain ⟨j', hj', hjj⟩ := Option.map_eq_some.mp h
      obtain ⟨hpj', hprev⟩ := ih (p ∘ Nat.succ) j' hj'
      subst hjj
      refine ⟨hpj', fun i hi => ?_⟩
      cases i with
      | zero => exact Bool.eq_false_iff.mpr hp0
      | succ i' => exact hprev i' (by omega)

theorem flagOf_applyPattern_ne (j : Nat) (hj : j < 6) (k' : Kind) (s : St)
    (h : k' ≠ kindOfIdx j) : flagOf k' (applyPattern j s) = flagOf k' s := by
  interval_cases j <;> cases k' <;>
    simp_all [applyPattern, kindOfIdx, flagOf]

/-- C10 counterexample: on the line "LIGHT1 ONLIGHT1 OFF" both the first
and the second pattern occur; the first sets `light1` to 1, so the flag
named by the later matching pattern ("LIGHT1 OFF" also names `light1`) is
not left unchanged. -/
theorem laterMatch_flag_changes : ¬ laterMatchesLeaveFlags := by
  intro h
  have hc := (h "LIGHT1 ONLIGHT1 OFF".toList initSt 0 1 (by decide)
    (by decide) (by decide) (by decide)).2
  revert hc
  decide

/-- C10 (amended): when an input line contains several of the six command
strings, only the first pattern in the fixed check order takes effect —
the state is exactly that of applying the first matching pattern — and the
flag named by a later matching pattern is left unchanged whenever it is a
different flag from the first's (a later pattern naming the same flag as
the first sees the first pattern's write). -/
theorem parseCommand_first_match_priority (cmd : List Char) (s : St)
    (j : Nat) (hfm : firstMatch cmd = some j) :
    (ParseCommand cmd s).1 = applyPattern j s ∧
    (∀ j', j' < 6 → j < j' → strstrB cmd (patterns.getD j' []) = true →
      kindOfIdx j' ≠ kindOfIdx j →
      flagOf (kindOfIdx j') ((ParseCommand cmd s).1) =
        flagOf (kindOfIdx j') s) := by
  have hj6 : j < 6 :=
    List.mem_range.mp (List.mem_of_find?_eq_some hfm)
  obtain ⟨hpj, hprev⟩ := find?_range_first
    (fun i => strstrB cmd (patterns.getD i [])) 6 j hfm
  have heq : (ParseCommand cmd s).1 = applyPattern j s := by
    interval_cases j
    · simp only [patterns, List.getD, List.get?_cons_zero, List.get?_cons_succ,
        Option.getD_some] at hpj
      simp at hpj
      simp [ParseCommand, applyPattern, hpj]
    · have h0 := hprev 0 (by omega)
      simp only [patterns, List.getD, List.get?_cons_zero, List.get?_cons_succ,
        Option.getD_some] at hpj h0
      simp at hpj h0
      simp [ParseCommand, applyPattern, hpj, h0]
    · have h0 := hprev 0 (by omega); have h1 := hprev 1 (by omega)
      simp only [patterns, List.getD, List.get?_cons_zero, List.get?_cons_succ,
        Option.getD_some] at hpj h0 h1
      simp at hpj h0 h1
      simp [ParseCommand, applyPattern, hpj, h0, h1]
    · have h0 := hprev 0 (by omega); have h1 := hprev 1 (by omega)
      have h2 := hprev 2 (by omega)
      simp only [patterns, List.getD, List.get?_cons_zero, List.get?_cons_succ,
        Option.getD_some] at hpj h0 h1 h2
      simp at hpj h0 h1 h2
      simp [ParseCommand, applyPattern, hpj, h0, h1, h2]
    · have h0 := hprev 0 (by omega); have h1 := hprev 1 (by omega)
      have h2 := hprev 2 (by omega); have h3 := hprev 3 (by omega)
      simp only [patterns, List.getD, List.get?_cons_zero, List.get?_cons_succ,
        Option.getD_some] at hpj h0 h1 h2 h3
      simp at hpj h0 h1 h2 h3
      simp [ParseCommand, applyPattern, hpj, h0, h1, h2, h3]
    · have h0 := hprev 0 (by omega); have h1 := hprev 1 (by omega)
      have h2 := hprev 2 (by omega); have h3 := hprev 3 (by omega)
      have h4 := hprev 4 (by omega)
      simp only [patterns, List.getD, List.get?_cons_zero, List.get?_cons_succ,
        Option.getD_some] at hpj h0 h1 h2 h3 h4
      simp at hpj h0 h1 h2 h3 h4
      simp [ParseCommand, applyPattern, hpj, h0, h1, h2, h3, h4]
  refine ⟨heq, fun j' h6 hgt hocc hkind => ?_⟩
  rw [heq]
  exact flagOf_applyPattern_ne j hj6 (kindOfIdx j') s hkind

theorem parseCommand_first_match_priority_witness :
    (ParseCommand "LIGHT1 OFFAN ON".toList initSt).1 =
      applyPattern 1 initSt ∧
    flagOf (kindOfIdx 2) ((ParseCommand "LIGHT1 OFFAN ON".toList initSt).1) =
      flagOf (kindOfIdx 2) initSt :=
  ⟨(parseCommand_first_match_priority "LIGHT1 OFFAN ON".toList initSt 1
      (by decide)).1,
   (parseCommand_first_match_priority "LIGHT1 OFFAN ON".toList initSt 1
      (by decide)).2 2 (by decide) (by decide) (by decide) (by decide)⟩

example : strstrB "say LIGHT1 ON now".toList "LIGHT1 ON".toList = true := by decide
example : strstrB "LIGHT1 ON".toList "FAN ON".toList = false := by decide
example : parseSt "FAN ON".toList initSt = ⟨0, 1, 0⟩ := by decide
example : (readLine (fun _ => '\r') 0).1 = 0 := by decide
example :
    (readLine (fun n => if n = 0 then 'A' else '\n') 0).1 = 1 := by decide

end SmartRoom
